import Mathlib

/-!
Verification of `Mmani/embedding/spectral_embedding.py`.

We give a shallow embedding of the numerical pipeline of the repository:
matrices are functions `Fin n → Fin n → ℚ`, sparse matrices are COO entry
lists, and the stateless Python functions become Lean functions.  The
eigen-decomposition dispatcher (`Mmani.embedding.eigendecomp`) is not among
the sources; following §4.3 of the specification it is treated as an external
collaborator and modelled by a contract (`DispatcherContract`).
-/

set_option maxHeartbeats 1000000

namespace Mmani

/-- Length-`n` vector of rationals (one entry per sample). -/
abbrev Vec (n : Nat) := Fin n → ℚ

/-- Dense square `n × n` matrix of rationals. -/
abbrev Mat (n : Nat) := Fin n → Fin n → ℚ

/-- One stored entry of a sparse matrix in COO (coordinate) format:
scipy's `coo_matrix` keeps three parallel arrays `row`, `col`, `data`. -/
structure CooEntry (n : Nat) where
  row : Fin n
  col : Fin n
  data : ℚ
deriving DecidableEq

/-- A square matrix as it is handed to the Python functions: either a dense
`numpy` array or a scipy sparse matrix (represented by its COO entries). -/
inductive GraphRep (n : Nat) where
  | dense (m : Mat n)
  | coo (entries : List (CooEntry n))

/-- The mathematical matrix described by a COO entry list (scipy sums
duplicate coordinates). -/
def cooToMat {n : Nat} (entries : List (CooEntry n)) : Mat n := fun i j =>
  ((entries.filter (fun e => e.row = i ∧ e.col = j)).map (fun e => e.data)).sum

/-- The mathematical matrix of either representation. -/
def GraphRep.toMat {n : Nat} : GraphRep n → Mat n
  | .dense m => m
  | .coo entries => cooToMat entries

/-! ### Graph connectivity (`_graph_connected_component`, `_graph_is_connected`) -/

/-- Source line 45: `_, node_to_add = np.where(graph[connected_components] != 0)`;
the column indices of the non-zero entries in the rows selected by the
current reached set. -/
def nodeToAdd {n : Nat} (g : Mat n) (cc : Finset (Fin n)) : Finset (Fin n) :=
  Finset.univ.filter (fun j => ∃ i ∈ cc, g i j ≠ 0)

/-- Source lines 43–48: the `for i in range(n_node)` loop of
`_graph_connected_component`.  Each pass records the current size, adds all
columns reachable from the reached rows, and breaks as soon as the size did
not grow (the updated set is returned, as the Python array is mutated in
place before the break test). -/
def ccLoop {n : Nat} (g : Mat n) : Nat → Finset (Fin n) → Finset (Fin n)
  | 0, cc => cc
  | fuel + 1, cc =>
    if (cc ∪ nodeToAdd g cc).card ≤ cc.card then cc ∪ nodeToAdd g cc
    else ccLoop g fuel (cc ∪ nodeToAdd g cc)

/-- Source lines 20–49 `_graph_connected_component(graph, node_id)`: the fixed
point of the breadth-first expansion seeded with `node_id`, run for at most
`n` iterations. -/
def _graph_connected_component {n : Nat} (g : Mat n) (node_id : Fin n) :
    Finset (Fin n) :=
  ccLoop g n {node_id}

/-- Modelled from the spec: `sklearn.utils.sparsetools.connected_components`
(an external library routine, §4.1: "count connected components ... over the
non-zero structure").  The affinity matrix is symmetric per §3, and for a
symmetric non-zero structure the number of connected components equals the
number of distinct breadth-first closures, which is how we count here. -/
def numComponents {n : Nat} (g : Mat n) : Nat :=
  (Finset.univ.image (fun i => _graph_connected_component g i)).card

/-- Source lines 52–72 `_graph_is_connected(graph)`: sparse input counts
connected components and compares with 1; dense input checks that the
breadth-first expansion from node 0 reached all `n` nodes. -/
def _graph_is_connected {n : Nat} [NeZero n] : GraphRep n → Bool
  | .coo entries => numComponents (cooToMat entries) == 1
  | .dense g => (_graph_connected_component g 0).card == n

/-- Adjacency relation of the non-zero structure: non-zero weight means an
edge between the nodes (source docstring, lines 26–28). -/
def adjRel {n : Nat} (g : Mat n) (i j : Fin n) : Prop := g i j ≠ 0

/-- Specification-side connectivity: the graph has exactly one connected
component, i.e. every node is reachable from every node through non-zero
entries. -/
def connectedSpec {n : Nat} (g : Mat n) : Prop :=
  ∀ i j : Fin n, Relation.ReflTransGen (adjRel g) i j

/-! ### Laplacian conditioning (`_set_diag`) -/

/-- The storage layouts `_set_diag` can return: the dense array (mutated in
place), scipy's `dia_matrix`, or scipy's `csr_matrix`.  The two sparse
layouts keep the same entries; only the tag differs. -/
inductive ConditionedRep (n : Nat) where
  | dense (m : Mat n)
  | dia (entries : List (CooEntry n))
  | csr (entries : List (CooEntry n))

/-- Source line 104: `np.unique(laplacian.row - laplacian.col).size`, the
number of distinct diagonal offsets among the stored entries. -/
def nDiags {n : Nat} (entries : List (CooEntry n)) : Nat :=
  ((entries.map (fun e => (e.row.val : ℤ) - (e.col.val : ℤ))).toFinset).card

/-- Source lines 99–100: `diag_idx = (laplacian.row == laplacian.col);
laplacian.data[diag_idx] = value` — the data of a stored entry sitting on
the main diagonal is overwritten, every other stored entry is untouched. -/
def setDiagEntry {n : Nat} (value : ℚ) (e : CooEntry n) : CooEntry n :=
  if e.row = e.col then ⟨e.row, e.col, value⟩ else e

/-- Source lines 75–112 `_set_diag(laplacian, value)`: dense input has its
`n` diagonal entries overwritten in place (`laplacian.flat[::n_nodes + 1] =
value`) and is returned as-is; sparse input is converted to COO, the data of
every stored diagonal entry is overwritten, and the result is returned in
DIA layout when the number of stored diagonals is at most 7, in CSR layout
otherwise. -/
def _set_diag {n : Nat} : GraphRep n → ℚ → ConditionedRep n
  | .dense m, value => .dense (fun i j => if i = j then value else m i j)
  | .coo entries, value =>
    let entries2 := entries.map (setDiagEntry value)
    if nDiags entries2 ≤ 7 then .dia entries2 else .csr entries2

/-- The mathematical matrix of a conditioned representation. -/
def ConditionedRep.toMat {n : Nat} : ConditionedRep n → Mat n
  | .dense m => m
  | .dia entries => cooToMat entries
  | .csr entries => cooToMat entries

/-- Whether `_set_diag` chose the diagonal-oriented layout. -/
def ConditionedRep.isDia {n : Nat} : ConditionedRep n → Bool
  | .dia _ => true
  | _ => false

/-- Whether `_set_diag` chose the compressed-row layout. -/
def ConditionedRep.isCsr {n : Nat} : ConditionedRep n → Bool
  | .csr _ => true
  | _ => false

/-! ### The spectral embedding pipeline (`spectral_embedding`) -/

/-- The error taxonomy of §7 of the specification as far as it reaches the
pipeline through the dispatcher. -/
inductive ConfigError where
  | configurationError
  | numericalNonConvergence
deriving DecidableEq

/-- Type of the eigen-decomposition dispatcher
(`Mmani.embedding.eigendecomp.eigen_decomposition`): it receives the
Laplacian, the requested eigenpair count and the `drop_first` flag (the
solver tag, random state and tolerance only steer its internal numerics and
are omitted), and returns the eigenvalues together with the rows of
`diffusion_map.T`, i.e. the list of eigenvectors. -/
abbrev Solver (n : Nat) :=
  Mat n → Nat → Bool → Except ConfigError (List ℚ × List (Vec n))

/-- Modelled from the spec: the contract of the EigenDecompositionDispatcher
(§4.3 and §7), whose implementation is not among the sources.  A request of
`k ≥ N` eigenpairs fails with a configuration error; a successful call
returns exactly `k` eigenvalues sorted ascending and the `k` corresponding
eigenvectors. -/
structure DispatcherContract (n : Nat) (solver : Solver n) : Prop where
  fail_ge : ∀ lap k df, n ≤ k → solver lap k df = .error .configurationError
  len_ok : ∀ lap k df vals vecs, solver lap k df = .ok (vals, vecs) →
    vals.length = k ∧ vecs.length = k
  sorted_ok : ∀ lap k df vals vecs, solver lap k df = .ok (vals, vecs) →
    vals.Chain' (· ≤ ·)

/-- The eigenpair count the pipeline passes to the dispatcher: source line
198 passes `n_components` unchanged, whatever `drop_first` is. -/
def requestedCount (n_components : Nat) (drop_first : Bool) : Nat :=
  n_components

/-- Python `xs[:b]` on a list of rows. -/
def sliceStop {α : Type} (xs : List α) (b : Nat) : List α := xs.take b

/-- Python `xs[a:b]` on a list of rows. -/
def sliceStartStop {α : Type} (xs : List α) (a b : Nat) : List α :=
  (xs.take b).drop a

/-- Python `xs[a::-1]` on a list of rows: indices `a, a-1, ..., 0`, the start
index being clamped into range as numpy does. -/
def sliceRevDown {α : Type} (xs : List α) (a : Nat) : List α :=
  (xs.take (a + 1)).reverse

/-- Source line 200, `embedding = diffusion_map.T[n_components::-1] * dd`:
the reversed rows of `diffusion_map.T`, each multiplied elementwise by the
broadcast degree vector `dd`. -/
def rescaledRows {n : Nat} (diffusionMapT : List (Vec n)) (dd : Vec n)
    (n_components : Nat) : List (Vec n) :=
  (sliceRevDown diffusionMapT n_components).map (fun v i => v i * dd i)

/-- Source line 187: the warning text emitted for a disconnected graph. -/
def connWarning : String :=
  "Graph is not fully connected, spectral embedding may not work as expected."

/-- Source lines 115–204 `spectral_embedding(Geometry, n_components, ...)`.
The Geometry collaborator is represented by what the pipeline reads from it:
its affinity matrix (`affinity`) and its Laplacian (`laplacian`).  The first
component of the result is the list of emitted warnings; the second is the
returned embedding or the error surfaced by the dispatcher.  The embedding
`N × k_final` matrix is represented by the list of its `k_final` columns
(each a length-`N` vector), i.e. by the rows of the array the source
transposes on lines 202/204. -/
def spectral_embedding {n : Nat} [NeZero n] (solver : Solver n)
    (affinity : GraphRep n) (laplacian : Mat n) (n_components : Nat)
    (drop_first : Bool) :
    List String × Except ConfigError (List (Vec n)) :=
  let warns := if _graph_is_connected affinity then [] else [connWarning]
  let dd : Vec n := fun i => laplacian i i
  let result :=
    match solver laplacian (requestedCount n_components drop_first) drop_first with
    | .error e => .error e
    | .ok (_lambdas, diffusionMapT) =>
      let embedding := rescaledRows diffusionMapT dd n_components
      if drop_first then .ok (sliceStartStop embedding 1 n_components)
      else .ok (sliceStop embedding n_components)
  (warns, result)

/-! ### The estimator facade (`SpectralEmbedding.fit`, `fit_transform`) -/

/-- Python errors the estimator model can surface. -/
inductive PyError where
  | nameError (missing : String)
  | pipelineError (e : ConfigError)
deriving DecidableEq

/-- The names bound at module level in `spectral_embedding.py`: the imports
of lines 10–18 and the module's own definitions. -/
def moduleNames : List String :=
  [r"warnings", r"np", r"geom", r"eigen_decomposition", r"sparse",
   r"BaseEstimator", r"TransformerMixin", r"check_random_state",
   r"connected_components", r"_graph_connected_component",
   r"_graph_is_connected", r"_set_diag", r"spectral_embedding",
   r"SpectralEmbedding"]

/-- The local names bound inside `SpectralEmbedding.fit` when line 294
executes: the parameters and the assignment of line 293.  (Python does not
put the attributes of `self` into the method's name scope.) -/
def fitLocalNames : List String := [r"self", r"X", r"y", r"random_state"]

/-- The name the `if` on source line 294 reads. -/
def isAffinityName : String := r"is_affinity"

/-- Python name resolution inside the body of `fit`: a bare name resolves
iff it is a local or a module-level name. -/
def nameResolves (nm : String) : Bool :=
  fitLocalNames.contains nm || moduleNames.contains nm

/-- The parameter/attribute state of a `SpectralEmbedding` estimator
(source lines 262–272), together with the `embedding_` attribute that `fit`
is supposed to assign.  `random_state` is kept as an optional seed, the
values `check_random_state` accepts. -/
structure Estimator (n : Nat) where
  n_components : Nat
  is_affinity : Bool
  radius : Option ℚ
  random_state : Option Nat
  embedding_ : Option (List (Vec n)) := none

/-- Source lines 274–309 `SpectralEmbedding.fit(self, X)`.  The construction
of the Geometry collaborator from `X` is abstracted by the `geometry`
argument (out of scope per §1); it would only be invoked in the branch in
which the bare name of line 294 resolves. -/
def Estimator.fit {n : Nat} [NeZero n] (solver : Solver n)
    (geometry : Bool → GraphRep n × Mat n) (est : Estimator n)
    (_X : List (Vec n)) : Except PyError (Estimator n) :=
  if nameResolves isAffinityName then
    let (aff, lap) := geometry est.is_affinity
    match (spectral_embedding solver aff lap est.n_components true).2 with
    | .error e => .error (.pipelineError e)
    | .ok cols => .ok { est with embedding_ := some cols }
  else
    .error (.nameError isAffinityName)

/-- Source lines 311–330 `SpectralEmbedding.fit_transform(self, X)`: calls
`fit` and returns the stored `embedding_`. -/
def Estimator.fit_transform {n : Nat} [NeZero n] (solver : Solver n)
    (geometry : Bool → GraphRep n × Mat n) (est : Estimator n)
    (X : List (Vec n)) : Except PyError (List (Vec n)) :=
  match est.fit solver geometry X with
  | .error e => .error e
  | .ok est2 => .ok (est2.embedding_.getD [])

/-! ### Concrete inputs used by witnesses and counterexamples -/

/-- The all-ones affinity matrix: a single clique on `n` nodes. -/
def cliqueMat (n : Nat) : Mat n := fun _ _ => 1

/-- Two disjoint cliques, of sizes `a + 1` and `b + 1`, with no edge between
them: nodes `0 … a` form one block, nodes `a+1 … a+b+1` the other. -/
def twoCliqueMat (a b : Nat) : Mat (a + b + 2) := fun i j =>
  if i.val ≤ a ↔ j.val ≤ a then 1 else 0

/-- The identity matrix, used as a concrete Laplacian with degree vector 1. -/
def idMat (n : Nat) : Mat n := fun i j => if i = j then 1 else 0

/-- A dispatcher satisfying `DispatcherContract`: equal eigenvalues 0 and
all-ones eigenvectors. -/
def dummySolver (n : Nat) : Solver n := fun _ k _ =>
  if k < n then .ok (List.replicate k 0, List.replicate k (fun _ => 1))
  else .error .configurationError

/-- A non-constant vector orthogonal to the constant mode on 3 nodes. -/
def v1C2 : Vec 3 := fun i => if i = 0 then 1 else if i = 1 then -1 else 0

/-- A dispatcher on 3 nodes satisfying `DispatcherContract` that, for a
request of 2 eigenpairs, returns eigenvalues `0 ≤ 1` sorted ascending with
the trivial constant eigenvector first and `v1C2` second. -/
def solverC2 : Solver 3 := fun _ k _ =>
  if k = 2 then .ok ([0, 1], [fun _ => 1, v1C2])
  else if k < 3 then .ok (List.replicate k 0, List.replicate k (fun _ => 1))
  else .error .configurationError

/-- A dispatcher on 2 nodes that agrees with `dummySolver 2` on requests of
one eigenpair and fails on every other request. -/
def solverAlt2 : Solver 2 := fun lap k df =>
  if k = 1 then dummySolver 2 lap k df else .error .numericalNonConvergence

/-- A sparse 2×2 matrix whose stored pattern contains the diagonal position
`(0,0)` but not `(1,1)`. -/
def entriesW2 : List (CooEntry 2) := [⟨0, 0, 5⟩, ⟨0, 1, 3⟩]

/-- The eigenvector list `dummySolver 3` returns for a request of 2
eigenpairs. -/
def vecsW3 : List (Vec 3) := List.replicate 2 (fun _ => 1)

/-- The column list `spectral_embedding (dummySolver 3) … 2 false` returns
on the identity Laplacian. -/
def colsW3 : List (Vec 3) :=
  sliceStop (rescaledRows vecsW3 (fun i => idMat 3 i i) 2) 2

/-- The 2-node path graph: symmetric, connected, no self loops. -/
def pathMat2 : Mat 2 := fun i j => if i = j then 0 else 1

/-- The 2-node path graph as a dense representation. -/
def repC5 : GraphRep 2 := .dense pathMat2

/-! ### Helper lemmas: the breadth-first expansion computes reachability -/

lemma subset_ccLoop {n : Nat} (g : Mat n) :
    ∀ fuel cc, cc ⊆ ccLoop g fuel cc := by
  intro fuel
  induction fuel with
  | zero => intro cc; exact fun x hx => hx
  | succ f ih =>
    intro cc
    rw [ccLoop]
    split
    · exact Finset.subset_union_left
    · exact Finset.Subset.trans Finset.subset_union_left (ih _)

lemma ccLoop_sound {n : Nat} (g : Mat n) :
    ∀ fuel cc x, x ∈ ccLoop g fuel cc →
      ∃ a ∈ cc, Relation.ReflTransGen (adjRel g) a x := by
  intro fuel
  induction fuel with
  | zero => intro cc x hx; exact ⟨x, hx, Relation.ReflTransGen.refl⟩
  | succ f ih =>
    intro cc x hx
    have step : ∀ y, y ∈ cc ∪ nodeToAdd g cc →
        ∃ a ∈ cc, Relation.ReflTransGen (adjRel g) a y := by
      intro y hy
      rcases Finset.mem_union.mp hy with h | h
      · exact ⟨y, h, Relation.ReflTransGen.refl⟩
      · rcases (Finset.mem_filter.mp h).2 with ⟨i, hi, hij⟩
        exact ⟨i, hi, Relation.ReflTransGen.single hij⟩
    rw [ccLoop] at hx
    split at hx
    · exact step x hx
    · rcases ih _ x hx with ⟨a, ha, hr⟩
      rcases step a ha with ⟨b, hb, hrb⟩
      exact ⟨b, hb, hrb.trans hr⟩

lemma ccLoop_closed {n : Nat} (g : Mat n) :
    ∀ fuel cc, n + 1 ≤ cc.card + fuel →
      ∀ i ∈ ccLoop g fuel cc, ∀ j, g i j ≠ 0 → j ∈ ccLoop g fuel cc := by
  intro fuel
  induction fuel with
  | zero =>
    intro cc hcard
    have h1 : cc.card ≤ n := by
      simpa using Finset.card_le_univ cc
    omega
  | succ f ih =>
    intro cc hcard i hi j hij
    rw [ccLoop] at hi ⊢
    by_cases h : (cc ∪ nodeToAdd g cc).card ≤ cc.card
    · rw [if_pos h] at hi ⊢
      have heq : cc = cc ∪ nodeToAdd g cc :=
        Finset.eq_of_subset_of_card_le Finset.subset_union_left h
      have hic : i ∈ cc := by rw [heq]; exact hi
      have : j ∈ nodeToAdd g cc := by
        exact Finset.mem_filter.mpr ⟨Finset.mem_univ j, ⟨i, hic, hij⟩⟩
      exact Finset.mem_union_right _ this
    · rw [if_neg h] at hi ⊢
      have hlt : cc.card < (cc ∪ nodeToAdd g cc).card := Nat.lt_of_not_le h
      exact ih _ (by omega) i hi j hij

lemma reach_mem_of_closed {n : Nat} (g : Mat n) (s : Finset (Fin n))
    (hclosed : ∀ i ∈ s, ∀ j, g i j ≠ 0 → j ∈ s) {a x : Fin n} (ha : a ∈ s)
    (hr : Relation.ReflTransGen (adjRel g) a x) : x ∈ s := by
  induction hr with
  | refl => exact ha
  | tail _ h2 ih => exact hclosed _ ih _ h2

lemma mem_gcc_iff {n : Nat} (g : Mat n) (node x : Fin n) :
    x ∈ _graph_connected_component g node ↔
      Relation.ReflTransGen (adjRel g) node x := by
  constructor
  · intro hx
    rcases ccLoop_sound g n {node} x hx with ⟨a, ha, hr⟩
    rw [Finset.mem_singleton] at ha
    rw [ha] at hr
    exact hr
  · intro hr
    have hclosed := ccLoop_closed g n {node}
      (by rw [Finset.card_singleton]; omega)
    exact reach_mem_of_closed g _ hclosed
      (subset_ccLoop g n {node} (Finset.mem_singleton_self node)) hr

lemma reach_symm {n : Nat} (g : Mat n) (hsym : ∀ i j, g i j = g j i)
    {a b : Fin n} (h : Relation.ReflTransGen (adjRel g) a b) :
    Relation.ReflTransGen (adjRel g) b a := by
  induction h with
  | refl => exact Relation.ReflTransGen.refl
  | tail _ h2 ih =>
    refine Relation.ReflTransGen.head ?_ ih
    show _ ≠ 0
    rw [hsym]
    exact h2

lemma dense_connected_iff {n : Nat} [NeZero n] (g : Mat n) :
    (_graph_is_connected (.dense g) = true) ↔
      ∀ x : Fin n, Relation.ReflTransGen (adjRel g) 0 x := by
  simp only [_graph_is_connected, beq_iff_eq]
  constructor
  · intro h x
    have huniv : _graph_connected_component g 0 = Finset.univ := by
      apply Finset.eq_univ_of_card
      simpa using h
    exact (mem_gcc_iff g 0 x).mp (by rw [huniv]; exact Finset.mem_univ x)
  · intro h
    have huniv : _graph_connected_component g 0 = Finset.univ :=
      Finset.eq_univ_iff_forall.mpr (fun x => (mem_gcc_iff g 0 x).mpr (h x))
    rw [huniv]
    simp

lemma numComponents_eq_one_iff {n : Nat} [NeZero n] (g : Mat n) :
    numComponents g = 1 ↔ connectedSpec g := by
  constructor
  · intro h i j
    rcases Finset.card_eq_one.mp h with ⟨s, hs⟩
    have hmem : ∀ a : Fin n, _graph_connected_component g a = s := by
      intro a
      have : _graph_connected_component g a ∈
          Finset.univ.image (fun i => _graph_connected_component g i) :=
        Finset.mem_image_of_mem _ (Finset.mem_univ a)
      rw [hs, Finset.mem_singleton] at this
      exact this
    have hjj : j ∈ _graph_connected_component g j :=
      subset_ccLoop g n {j} (Finset.mem_singleton_self j)
    rw [hmem j, ← hmem i] at hjj
    exact (mem_gcc_iff g i j).mp hjj
  · intro h
    have huniv : ∀ i, _graph_connected_component g i = Finset.univ := fun i =>
      Finset.eq_univ_iff_forall.mpr (fun x => (mem_gcc_iff g i x).mpr (h i x))
    have himg : Finset.univ.image (fun i => _graph_connected_component g i) =
        {Finset.univ} := by
      ext s
      simp only [Finset.mem_image, Finset.mem_univ, true_and,
        Finset.mem_singleton]
      constructor
      · rintro ⟨i, rfl⟩; exact huniv i
      · rintro rfl; exact ⟨0, huniv 0⟩
    rw [numComponents, himg, Finset.card_singleton]

lemma reach_from_zero_iff {n : Nat} [NeZero n] (g : Mat n)
    (hsym : ∀ i j, g i j = g j i) :
    (∀ x : Fin n, Relation.ReflTransGen (adjRel g) 0 x) ↔ connectedSpec g := by
  constructor
  · intro h i j
    exact (reach_symm g hsym (h i)).trans (h j)
  · intro h x
    exact h 0 x

lemma twoClique_block {a b : Nat} {x : Fin (a + b + 2)}
    (h : Relation.ReflTransGen (adjRel (twoCliqueMat a b)) 0 x) : x.val ≤ a := by
  induction h with
  | refl => simp
  | tail _ h2 ih =>
    by_contra hz
    apply h2
    show twoCliqueMat a b _ _ = 0
    rw [twoCliqueMat, if_neg]
    intro hiff
    exact hz (hiff.mp ih)

/-! ### Helper lemmas: `_set_diag` on COO entry lists -/

lemma setDiagEntry_row {n : Nat} (v : ℚ) (e : CooEntry n) :
    (setDiagEntry v e).row = e.row := by
  rw [setDiagEntry]; split <;> rfl

lemma setDiagEntry_col {n : Nat} (v : ℚ) (e : CooEntry n) :
    (setDiagEntry v e).col = e.col := by
  rw [setDiagEntry]; split <;> rfl

lemma setDiagEntry_data {n : Nat} (v : ℚ) (e : CooEntry n) :
    (setDiagEntry v e).data = if e.row = e.col then v else e.data := by
  rw [setDiagEntry]
  split <;> rfl

lemma coords_map_setDiagEntry {n : Nat} (v : ℚ) (l : List (CooEntry n)) :
    (l.map (setDiagEntry v)).map (fun e => (e.row, e.col))
      = l.map (fun e => (e.row, e.col)) := by
  induction l with
  | nil => rfl
  | cons e t ih =>
    simp only [List.map_cons, ih, setDiagEntry_row, setDiagEntry_col]

lemma nDiags_map_setDiagEntry {n : Nat} (v : ℚ) (l : List (CooEntry n)) :
    nDiags (l.map (setDiagEntry v)) = nDiags l := by
  have hoff : (l.map (setDiagEntry v)).map
        (fun e => ((e.row.val : ℤ) - (e.col.val : ℤ)))
      = l.map (fun e => ((e.row.val : ℤ) - (e.col.val : ℤ))) := by
    induction l with
    | nil => rfl
    | cons e t ih =>
      simp only [List.map_cons, ih, setDiagEntry_row, setDiagEntry_col]
  rw [nDiags, hoff, nDiags]

lemma cooToMat_cons {n : Nat} (e : CooEntry n) (l : List (CooEntry n))
    (i j : Fin n) :
    cooToMat (e :: l) i j
      = (if e.row = i ∧ e.col = j then e.data else 0) + cooToMat l i j := by
  rw [cooToMat, cooToMat]
  by_cases h : e.row = i ∧ e.col = j
  · simp [List.filter_cons, h]
  · simp [List.filter_cons, h]

lemma cooToMat_eq_zero_of_not_stored {n : Nat} (l : List (CooEntry n))
    (i j : Fin n) (h : ∀ e ∈ l, ¬(e.row = i ∧ e.col = j)) :
    cooToMat l i j = 0 := by
  induction l with
  | nil => rfl
  | cons e t ih =>
    rw [cooToMat_cons, if_neg (h e (List.mem_cons_self e t)), zero_add]
    exact ih (fun x hx => h x (List.mem_cons_of_mem e hx))

lemma cooToMat_map_setDiagEntry_diag {n : Nat} (v : ℚ)
    (l : List (CooEntry n)) (i : Fin n)
    (hnd : (l.map (fun e => (e.row, e.col))).Nodup) :
    ((i, i) ∈ l.map (fun e => (e.row, e.col)) →
      cooToMat (l.map (setDiagEntry v)) i i = v)
    ∧ ((i, i) ∉ l.map (fun e => (e.row, e.col)) →
      cooToMat (l.map (setDiagEntry v)) i i = 0) := by
  induction l with
  | nil =>
    refine ⟨fun h => absurd h (by simp), fun _ => rfl⟩
  | cons e t ih =>
    rw [List.map_cons, List.nodup_cons] at hnd
    obtain ⟨hhead, htail⟩ := hnd
    rcases ih htail with ⟨ih1, ih2⟩
    simp only [List.map_cons]
    rw [cooToMat_cons]
    by_cases hcoord : (e.row, e.col) = ((i : Fin n), (i : Fin n))
    · have hrow : e.row = i := congrArg Prod.fst hcoord
      have hcol : e.col = i := congrArg Prod.snd hcoord
      have hdiag : e.row = e.col := by rw [hrow, hcol]
      have hcond : (setDiagEntry v e).row = i ∧ (setDiagEntry v e).col = i := by
        rw [setDiagEntry_row, setDiagEntry_col]; exact ⟨hrow, hcol⟩
      have hdata : (setDiagEntry v e).data = v := by
        rw [setDiagEntry_data, if_pos hdiag]
      have hnot : (i, i) ∉ t.map (fun e => (e.row, e.col)) := by
        rw [← hcoord]; exact hhead
      have htailmat : cooToMat (t.map (setDiagEntry v)) i i = 0 := ih2 hnot
      constructor
      · intro _
        rw [if_pos hcond, hdata, htailmat, add_zero]
      · intro hmem
        exact absurd (by rw [← hcoord]; exact List.mem_cons_self _ _) hmem
    · have hcond : ¬((setDiagEntry v e).row = i ∧ (setDiagEntry v e).col = i) := by
        rw [setDiagEntry_row, setDiagEntry_col]
        intro hc
        exact hcoord (Prod.ext hc.1 hc.2)
      rw [if_neg hcond, zero_add]
      constructor
      · intro hmem
        rw [List.mem_cons] at hmem
        rcases hmem with hmem | hmem
        · exact absurd hmem.symm hcoord
        · exact ih1 hmem
      · intro hmem
        apply ih2
        intro hc
        exact hmem (List.mem_cons_of_mem _ hc)

lemma toMat_set_diag_coo {n : Nat} (entries : List (CooEntry n)) (v : ℚ) :
    (_set_diag (.coo entries) v).toMat = cooToMat (entries.map (setDiagEntry v)) := by
  rw [_set_diag]
  split <;> rfl

/-! ### Helper lemmas: slices and concrete dispatchers -/

lemma length_rescaledRows {n : Nat} (dmT : List (Vec n)) (dd : Vec n)
    (k : Nat) : (rescaledRows dmT dd k).length = min (k + 1) dmT.length := by
  simp [rescaledRows, sliceRevDown]

lemma rescaledRows_getElem {n : Nat} (vecs : List (Vec n)) (dd : Vec n)
    (k r : Nat) (hlen : vecs.length = k) (hr : r < k) :
    (rescaledRows vecs dd k)[r]?
      = some (fun i => vecs.getD (k - 1 - r) (fun _ => 0) i * dd i) := by
  have htake : vecs.take (k + 1) = vecs := List.take_of_length_le (by omega)
  have hlt : k - 1 - r < vecs.length := by omega
  rw [rescaledRows, sliceRevDown, htake, List.getElem?_map,
    List.getElem?_reverse (by omega : r < vecs.length), hlen,
    List.getElem?_eq_getElem (by omega : k - 1 - r < vecs.length),
    List.getD_eq_getElem vecs _ hlt]
  rfl

lemma chain_replicate_zero : ∀ k : Nat, (List.replicate k (0 : ℚ)).Chain' (· ≤ ·)
  | 0 => List.chain'_nil
  | 1 => List.chain'_singleton 0
  | (k + 2) => by
    rw [List.replicate_succ, List.replicate_succ]
    exact List.chain'_cons.mpr
      ⟨le_rfl, by rw [← List.replicate_succ]; exact chain_replicate_zero (k + 1)⟩

lemma dummySolver_contract (n : Nat) : DispatcherContract n (dummySolver n) := by
  refine ⟨?_, ?_, ?_⟩
  · intro lap k df h
    simp [dummySolver, Nat.not_lt.mpr h]
  · intro lap k df vals vecs h
    by_cases hk : k < n
    · simp [dummySolver, hk] at h
      rw [← h.1, ← h.2]
      simp
    · simp [dummySolver, hk] at h
  · intro lap k df vals vecs h
    by_cases hk : k < n
    · simp [dummySolver, hk] at h
      rw [← h.1]
      exact chain_replicate_zero k
    · simp [dummySolver, hk] at h

lemma solverC2_contract : DispatcherContract 3 solverC2 := by
  refine ⟨?_, ?_, ?_⟩
  · intro lap k df h
    have h2 : ¬ k = 2 := by omega
    have h3 : ¬ k < 3 := by omega
    simp [solverC2, h2, h3]
  · intro lap k df vals vecs h
    by_cases h2 : k = 2
    · subst h2
      simp [solverC2] at h
      rw [← h.1, ← h.2]
      simp
    · by_cases h3 : k < 3
      · simp [solverC2, h2, h3] at h
        rw [← h.1, ← h.2]
        simp
      · simp [solverC2, h2, h3] at h
  · intro lap k df vals vecs h
    by_cases h2 : k = 2
    · subst h2
      simp [solverC2] at h
      rw [← h.1]
      exact List.chain'_cons.mpr ⟨by norm_num, List.chain'_singleton 1⟩
    · by_cases h3 : k < 3
      · simp [solverC2, h2, h3] at h
        rw [← h.1]
        exact chain_replicate_zero k
      · simp [solverC2, h2, h3] at h

/-! ### Claims -/

/-- C5: for every square affinity matrix, `_graph_is_connected` returns true
iff the graph has exactly one connected component — sparse input by counting
components over the non-zero structure and comparing with 1, dense input by
the breadth-first fixed-point expansion from node 0 (which runs for at most
`n` iterations by construction of `ccLoop`).  In addition the single clique
is reported connected and two disjoint cliques are reported disconnected. -/
theorem C5_is_connected_iff_one_component {n : Nat} [NeZero n]
    (rep : GraphRep n) (hsym : ∀ i j, rep.toMat i j = rep.toMat j i) :
    (_graph_is_connected rep = true ↔ connectedSpec rep.toMat)
    ∧ (∀ m : Nat, _graph_is_connected (.dense (cliqueMat (m + 1))) = true)
    ∧ (∀ a b : Nat, _graph_is_connected (.dense (twoCliqueMat a b)) = false) := by
  refine ⟨?_, ?_, ?_⟩
  · cases rep with
    | dense g =>
      exact (dense_connected_iff g).trans (reach_from_zero_iff g hsym)
    | coo entries =>
      show ((numComponents (cooToMat entries) == 1) = true ↔ _)
      rw [beq_iff_eq]
      exact numComponents_eq_one_iff (cooToMat entries)
  · intro m
    apply (dense_connected_iff (cliqueMat (m + 1))).mpr
    intro x
    exact Relation.ReflTransGen.single one_ne_zero
  · intro a b
    apply Bool.eq_false_iff.mpr
    intro htrue
    have hall := (dense_connected_iff (twoCliqueMat a b)).mp htrue
    have hx := twoClique_block (hall ⟨a + 1, by omega⟩)
    simp at hx

/-- Witness for C5: the connectivity characterisation applied to the
concrete symmetric 2-node path graph. -/
theorem C5_witness :
    _graph_is_connected repC5 = true ↔ connectedSpec repC5.toMat :=
  (C5_is_connected_iff_one_component repC5 (by decide)).1

/-- C6 counterexample: a 1×1 sparse Laplacian whose stored pattern is empty.
`_set_diag` with `diagonal_value = 1` leaves the diagonal entry at 0, so not
every diagonal entry of the returned matrix equals the requested value. -/
theorem C6_counterexample :
    ConditionedRep.toMat (_set_diag (.coo ([] : List (CooEntry 1))) 1) 0 0 = 0
    ∧ (0 : ℚ) ≠ 1 :=
  ⟨rfl, zero_ne_one⟩

/-- C6 amended: dense input has every diagonal entry overwritten with the
requested value; sparse input has exactly the stored diagonal positions
overwritten, while a diagonal position absent from the stored pattern stays
zero (stated for patterns without duplicate coordinates, scipy's canonical
form). -/
theorem C6_set_diag_amended {n : Nat} (g : Mat n)
    (entries : List (CooEntry n)) (v : ℚ) (i : Fin n)
    (hnd : (entries.map (fun e => (e.row, e.col))).Nodup) :
    (ConditionedRep.toMat (_set_diag (.dense g) v) i i = v)
    ∧ ((i, i) ∈ entries.map (fun e => (e.row, e.col)) →
        ConditionedRep.toMat (_set_diag (.coo entries) v) i i = v)
    ∧ ((i, i) ∉ entries.map (fun e => (e.row, e.col)) →
        ConditionedRep.toMat (_set_diag (.coo entries) v) i i = 0) := by
  rcases cooToMat_map_setDiagEntry_diag v entries i hnd with ⟨h1, h2⟩
  refine ⟨by simp [_set_diag, ConditionedRep.toMat], ?_, ?_⟩
  · intro hmem
    rw [toMat_set_diag_coo]
    exact h1 hmem
  · intro hmem
    rw [toMat_set_diag_coo]
    exact h2 hmem

/-- Witness for C6: the amended statement applied to a concrete dense matrix
and a concrete sparse pattern that stores `(0,0)` but not `(1,1)`. -/
theorem C6_witness :
    (ConditionedRep.toMat (_set_diag (.dense pathMat2) 9) 0 0 = 9)
    ∧ ((0, 0) ∈ entriesW2.map (fun e => (e.row, e.col)) →
        ConditionedRep.toMat (_set_diag (.coo entriesW2) 9) 0 0 = 9)
    ∧ ((0, 0) ∉ entriesW2.map (fun e => (e.row, e.col)) →
        ConditionedRep.toMat (_set_diag (.coo entriesW2) 9) 0 0 = 0) :=
  C6_set_diag_amended pathMat2 entriesW2 9 0 (by decide)

/-- C7: for sparse input `_set_diag` returns the DIA layout exactly when the
number of distinct stored diagonals (offsets row − col) is at most 7 and the
CSR layout otherwise; dense input is returned in the dense layout, only its
diagonal overwritten. -/
theorem C7_layout_selection {n : Nat} (entries : List (CooEntry n)) (v : ℚ)
    (g : Mat n) :
    ((_set_diag (.coo entries) v).isDia = true ↔ nDiags entries ≤ 7)
    ∧ ((_set_diag (.coo entries) v).isCsr = true ↔ ¬ nDiags entries ≤ 7)
    ∧ _set_diag (.dense g) v
        = .dense (fun i j => if i = j then v else g i j) := by
  have hnd := nDiags_map_setDiagEntry v entries
  refine ⟨?_, ?_, rfl⟩
  · by_cases h : nDiags entries ≤ 7 <;>
      simp [_set_diag, ConditionedRep.isDia, hnd, h]
  · by_cases h : nDiags entries ≤ 7 <;>
      simp [_set_diag, ConditionedRep.isCsr, hnd, h]

/-- C8: a disconnected affinity matrix only changes the emitted warning; the
returned embedding (and any surfaced error) is the same value whatever the
connectivity check said, and the warning list is exactly the one diagnostic
driven by `_graph_is_connected`. -/
theorem C8_warning_does_not_alter_result {n : Nat} (solver : Solver (n + 1))
    (aff1 aff2 : GraphRep (n + 1)) (lap : Mat (n + 1)) (k : Nat) (df : Bool) :
    (spectral_embedding solver aff1 lap k df).2
        = (spectral_embedding solver aff2 lap k df).2
    ∧ (spectral_embedding solver aff1 lap k df).1
        = (if _graph_is_connected aff1 then [] else [connWarning]) :=
  ⟨rfl, rfl⟩

/-- C10: for every input `X`, `SpectralEmbedding.fit` fails with a
`NameError` on the unbound name of source line 294, never stores an
embedding, behaves identically for any Geometry constructor (none is ever
built), and `fit_transform` propagates the same error. -/
theorem C10_fit_name_error {n : Nat} (solver : Solver (n + 1))
    (geometry1 geometry2 : Bool → GraphRep (n + 1) × Mat (n + 1))
    (est : Estimator (n + 1)) (X : List (Vec (n + 1))) :
    est.fit solver geometry1 X = .error (.nameError isAffinityName)
    ∧ Estimator.fit_transform solver geometry1 est X
        = .error (.nameError isAffinityName)
    ∧ est.fit solver geometry1 X = est.fit solver geometry2 X := by
  have hres : nameResolves isAffinityName = false := by decide
  have hfit : ∀ geometry : Bool → GraphRep (n + 1) × Mat (n + 1),
      est.fit solver geometry X = .error (.nameError isAffinityName) := by
    intro geometry
    rw [Estimator.fit, if_neg]
    simp [hres]
  refine ⟨hfit geometry1, ?_, by rw [hfit geometry1, hfit geometry2]⟩
  rw [Estimator.fit_transform, hfit geometry1]

/-- C1 counterexample: on 3 samples, a successful call with `drop_first` set
and requested dimension `k = 2` returns a single-column embedding, not the
`k` columns the claim promises. -/
theorem C1_counterexample :
    Except.map List.length
        (spectral_embedding (dummySolver 3) (.dense (cliqueMat 3)) (idMat 3)
          2 true).2 = .ok 1
    ∧ (1 : Nat) ≠ 2 :=
  ⟨rfl, by omega⟩

/-- C1 amended: every successful call returns a matrix with one row per
sample (each column is a length-`N` vector by construction) and exactly `k`
columns when `drop_first` is unset, but `k − 1` columns when `drop_first`
is set — the pipeline never requests the spare eigenpair, so dropping one
row of the reversed eigenvector array loses a column. -/
theorem C1_output_shape_amended {n : Nat} [NeZero n] (solver : Solver n)
    (hc : DispatcherContract n solver) (aff : GraphRep n) (lap : Mat n)
    (k : Nat) (df : Bool) (vals : List ℚ) (vecs : List (Vec n))
    (hok : solver lap k df = .ok (vals, vecs)) :
    ∃ cols : List (Vec n),
      (spectral_embedding solver aff lap k df).2 = .ok cols
      ∧ cols.length = if df then k - 1 else k := by
  obtain ⟨-, hlen⟩ := hc.len_ok lap k df vals vecs hok
  have hemb : (rescaledRows vecs (fun i => lap i i) k).length = k := by
    rw [length_rescaledRows, hlen]; omega
  have hres : (spectral_embedding solver aff lap k df).2
      = if df then
          Except.ok (sliceStartStop (rescaledRows vecs (fun i => lap i i) k) 1 k)
        else Except.ok (sliceStop (rescaledRows vecs (fun i => lap i i) k) k) := by
    simp only [spectral_embedding, requestedCount, hok]
  cases df with
  | false =>
    rw [if_neg (by simp)] at hres
    refine ⟨_, hres, ?_⟩
    simp [sliceStop, hemb]
  | true =>
    rw [if_pos rfl] at hres
    refine ⟨_, hres, ?_⟩
    simp [sliceStartStop, hemb]

/-- Witness for C1 (amended): a successful 2-sample call with `k = 1` and
`drop_first` set returns an embedding with `1 − 1 = 0` columns. -/
theorem C1_witness :
    ∃ cols : List (Vec 2),
      (spectral_embedding (dummySolver 2) (.dense (cliqueMat 2)) (idMat 2) 1
        true).2 = .ok cols
      ∧ cols.length = if true then 1 - 1 else 1 :=
  C1_output_shape_amended (dummySolver 2) (dummySolver_contract 2) _ _ 1 true
    (List.replicate 1 0) (List.replicate 1 (fun _ => 1)) rfl

/-- C2: evaluation of the code at the failing input.  `solverC2` is a
dispatcher satisfying the §4.3 contract that returns, for a request of two
eigenpairs, the ascending eigenvalues `0, 1` with the trivial constant
eigenvector first.  With `drop_first` set and `k = 2` the pipeline returns
exactly the rescaled trivial mode (`(fun _ => 1) * dd = fun _ => 1` on the
identity Laplacian): the constant smallest-eigenvalue mode is kept, and the
non-trivial eigenvector `v1C2` of the largest eigenvalue is the one
discarded — the opposite of the claimed behaviour. -/
theorem C2_drop_first_keeps_trivial_mode :
    DispatcherContract 3 solverC2
    ∧ (spectral_embedding solverC2 (.dense (cliqueMat 3)) (idMat 3) 2 true).2
        = .ok [fun _ => (1 : ℚ)] := by
  refine ⟨solverC2_contract, ?_⟩
  have hstep : (spectral_embedding solverC2 (.dense (cliqueMat 3)) (idMat 3)
      2 true).2 = .ok [fun i => (1 : ℚ) * idMat 3 i i] := rfl
  rw [hstep]
  refine congrArg Except.ok ?_
  have hfun : (fun i => (1 : ℚ) * idMat 3 i i) = (fun _ : Fin 3 => (1 : ℚ)) := by
    funext i
    simp [idMat]
  rw [hfun]

/-- C3 counterexample: with `drop_first` set and `k = 2` the count argument
the pipeline hands to the dispatcher is 2, not `k + 1 = 3`. -/
theorem C3_counterexample :
    requestedCount 2 true = 2 ∧ requestedCount 2 true ≠ 2 + 1 :=
  ⟨rfl, by decide⟩

/-- C3 amended: the pipeline requests exactly `k` eigenpairs from the
dispatcher whatever `drop_first` is (the flag itself is merely forwarded):
two dispatchers that agree on requests of `k` eigenpairs make the whole
pipeline agree, whatever they do on requests of `k + 1`. -/
theorem C3_requested_count_amended {n : Nat} [NeZero n] (s1 s2 : Solver n)
    (aff : GraphRep n) (lap : Mat n) (k : Nat) (df : Bool)
    (h : ∀ L d, s1 L k d = s2 L k d) :
    spectral_embedding s1 aff lap k df = spectral_embedding s2 aff lap k df := by
  simp only [spectral_embedding, requestedCount]
  rw [h lap df]

/-- Witness for C3 (amended): `solverAlt2` agrees with `dummySolver 2` only
on requests of one eigenpair and fails on every other count, yet the
pipeline at `k = 1` cannot tell them apart — with `drop_first` or not. -/
theorem C3_witness :
    spectral_embedding (dummySolver 2) (.dense (cliqueMat 2)) (idMat 2) 1 false
      = spectral_embedding solverAlt2 (.dense (cliqueMat 2)) (idMat 2) 1 false :=
  C3_requested_count_amended (dummySolver 2) solverAlt2 _ _ 1 false
    (fun _ _ => rfl)

/-- C4: every eigenvector the dispatcher returns is rescaled by elementwise
multiplication with the same degree vector — the diagonal of the original
Laplacian — before selection (first conjunct: all `k` rows of the
`embedding` array of source line 200), and every returned column of the
final embedding is such a rescaled eigenvector (second conjunct). -/
theorem C4_degree_rescaling {n : Nat} [NeZero n] (solver : Solver n)
    (hc : DispatcherContract n solver) (aff : GraphRep n) (lap : Mat n)
    (k : Nat) (df : Bool) (vals : List ℚ) (vecs : List (Vec n))
    (cols : List (Vec n))
    (hok : solver lap k df = .ok (vals, vecs))
    (hcols : (spectral_embedding solver aff lap k df).2 = .ok cols) :
    (∀ r, r < k →
        (rescaledRows vecs (fun i => lap i i) k)[r]?
          = some (fun i => vecs.getD (k - 1 - r) (fun _ => 0) i * lap i i))
    ∧ (∀ j, j < cols.length →
        cols[j]?
          = some (fun i =>
              vecs.getD (k - 1 - (if df then 1 else 0) - j) (fun _ => 0) i
                * lap i i)) := by
  obtain ⟨-, hlen⟩ := hc.len_ok lap k df vals vecs hok
  have hemb : (rescaledRows vecs (fun i => lap i i) k).length = k := by
    rw [length_rescaledRows, hlen]; omega
  have htake : (rescaledRows vecs (fun i => lap i i) k).take k
      = rescaledRows vecs (fun i => lap i i) k :=
    List.take_of_length_le (by omega)
  have hres : (spectral_embedding solver aff lap k df).2
      = if df then
          Except.ok (sliceStartStop (rescaledRows vecs (fun i => lap i i) k) 1 k)
        else Except.ok (sliceStop (rescaledRows vecs (fun i => lap i i) k) k) := by
    simp only [spectral_embedding, requestedCount, hok]
  refine ⟨fun r hr => rescaledRows_getElem vecs _ k r hlen hr, ?_⟩
  rw [hres] at hcols
  cases df with
  | true =>
    rw [if_pos rfl] at hcols
    have hcolseq : sliceStartStop (rescaledRows vecs (fun i => lap i i) k) 1 k
        = cols := Except.ok.inj hcols
    subst hcolseq
    intro j hj
    simp only [sliceStartStop, htake] at hj ⊢
    rw [List.getElem?_drop]
    have h1j : 1 + j < k := by
      rw [List.length_drop, hemb] at hj
      omega
    rw [rescaledRows_getElem vecs _ k (1 + j) hlen h1j]
    have hidx : k - 1 - (1 + j) = k - 1 - 1 - j := by omega
    rw [hidx]
    simp
  | false =>
    rw [if_neg (by simp)] at hcols
    have hcolseq : sliceStop (rescaledRows vecs (fun i => lap i i) k) k
        = cols := Except.ok.inj hcols
    subst hcolseq
    intro j hj
    simp only [sliceStop, htake] at hj ⊢
    have hjk : j < k := by rw [hemb] at hj; exact hj
    rw [rescaledRows_getElem vecs _ k j hlen hjk]
    simp

/-- Witness for C4: the rescaling statement applied to a concrete successful
3-sample call on the identity Laplacian. -/
theorem C4_witness :
    (∀ r, r < 2 →
        (rescaledRows vecsW3 (fun i => idMat 3 i i) 2)[r]?
          = some (fun i => vecsW3.getD (2 - 1 - r) (fun _ => 0) i
              * idMat 3 i i))
    ∧ (∀ j, j < colsW3.length →
        colsW3[j]?
          = some (fun i =>
              vecsW3.getD (2 - 1 - (if false then 1 else 0) - j) (fun _ => 0) i
                * idMat 3 i i)) :=
  C4_degree_rescaling (dummySolver 3) (dummySolver_contract 3)
    (.dense (cliqueMat 3)) (idMat 3) 2 false (List.replicate 2 0) vecsW3
    colsW3 rfl rfl

/-- C9: requesting `k ≥ N` eigenpairs makes the pipeline fail with the
dispatcher's configuration error, surfaced unchanged to the caller — no
truncated or padded embedding is returned. -/
theorem C9_k_ge_N_configuration_error {n : Nat} [NeZero n] (solver : Solver n)
    (hc : DispatcherContract n solver) (aff : GraphRep n) (lap : Mat n)
    (k : Nat) (df : Bool) (hk : n ≤ k) :
    (spectral_embedding solver aff lap k df).2
      = .error .configurationError := by
  have hs := hc.fail_ge lap k df hk
  simp only [spectral_embedding, requestedCount, hs]

/-- Witness for C9: requesting one eigenpair from a single sample fails with
a configuration error. -/
theorem C9_witness :
    1 ≤ 1
    ∧ (spectral_embedding (dummySolver 1) (.dense (cliqueMat 1)) (idMat 1) 1
        true).2 = .error .configurationError :=
  ⟨Nat.le_refl 1,
    C9_k_ge_N_configuration_error (dummySolver 1) (dummySolver_contract 1)
      _ _ 1 true (Nat.le_refl 1)⟩

end Mmani
